import Mathlib

/-!
Verification of the synthetic-metrics pipeline of the Z_Performance repository.

The numeric code of `src/services/performanceService.ts` (and its second
variant shipped as an unnamed source file) is embedded shallowly over exact
rationals: JavaScript numbers become `ℚ`, `Math.floor`/`Math.round`/`toFixed`
become explicit integer floors, `Math.random()` draws become an explicit
argument `r : ℕ → ℚ` constrained to `[0, 1)`, and array reads become `List.getD`.
-/

namespace ZPerf

/-- Model of JavaScript `Math.round` on exact rationals: `round(x) = ⌊x + 1/2⌋`. -/
def jsRound (x : ℚ) : ℤ := ⌊x + 1 / 2⌋

/-- Model of `Number(x.toFixed(1))` on exact rationals: the nearest multiple of
`1/10`, ties toward the larger value, exactly as ECMA-262 `toFixed` specifies. -/
def jsToFixed1 (x : ℚ) : ℚ := ((⌊10 * x + 1 / 2⌋ : ℤ) : ℚ) / 10

/-- Model of `Number(x.toFixed(2))` on exact rationals. -/
def jsToFixed2 (x : ℚ) : ℚ := ((⌊100 * x + 1 / 2⌋ : ℤ) : ℚ) / 100

/-- The index `Math.floor((i / (targetPoints - 1)) * lastIndex)` computed by the
interpolation branch of `distributeDataPoints`, for a list of length `L`. -/
def interpIndex (L T i : ℕ) : ℤ := ⌊((i : ℚ) / ((T : ℚ) - 1)) * ((L - 1 : ℕ) : ℚ)⌋

/-- One output point of the interpolation branch of `distributeDataPoints`:
`position = (i / (targetPoints - 1)) * lastIndex`, `index = ⌊position⌋`,
`fraction = position - index`; blend `data[index]` and `data[index + 1]` when
`index + 1 ≤ lastIndex`, else return `data[lastIndex]`. -/
def interpPoint (data : List ℚ) (T i : ℕ) : ℚ :=
  let L := data.length
  let position : ℚ := ((i : ℚ) / ((T : ℚ) - 1)) * ((L - 1 : ℕ) : ℚ)
  let fraction : ℚ := position - ((interpIndex L T i : ℤ) : ℚ)
  if interpIndex L T i + 1 ≤ ((L - 1 : ℕ) : ℤ) then
    data.getD (interpIndex L T i).toNat 0 * (1 - fraction) +
      data.getD ((interpIndex L T i).toNat + 1) 0 * fraction
  else
    data.getD (L - 1) 0

/-- The index `Math.floor((i / targetPoints) * data.length)` computed by the
subsampling branch of `distributeDataPoints`. -/
def subIndex (L T i : ℕ) : ℕ := (⌊((i : ℚ) / (T : ℚ)) * (L : ℚ)⌋).toNat

/-- Shallow embedding of `distributeDataPoints(data, targetPoints)` from
`performanceService.ts` (identical in both shipped variants): empty input gives
`targetPoints` zeros; equal length returns the input; fewer samples than target
interpolates; more samples than target subsamples. -/
def distributeDataPoints (data : List ℚ) (targetPoints : ℕ) : List ℚ :=
  if data.length = 0 then List.replicate targetPoints 0
  else if data.length = targetPoints then data
  else if data.length < targetPoints then
    (List.range targetPoints).map (interpPoint data targetPoints)
  else
    (List.range targetPoints).map (fun i => data.getD (subIndex data.length targetPoints i) 0)

/-- Claim C1: for every list of samples and every target count `T`, the
resampling function `distributeDataPoints(samples, T)` returns a list of length
exactly `T`, in every regime (empty input, equal length, interpolation with
fewer samples, subsampling with more samples); in particular for all `T ≥ 1`. -/
theorem distributeDataPoints_length (data : List ℚ) (T : ℕ) :
    (distributeDataPoints data T).length = T := by
  unfold distributeDataPoints
  split_ifs with h1 h2 h3
  · simp
  · exact h2
  · simp
  · simp

/-- Claim C8: for every single-element sample list `[a]` and every target count
`T`, `distributeDataPoints([a], T)` returns `T` copies of `a`: with one sample,
`lastIndex = 0`, every interpolated position is `0`, the blend guard
`index + 1 ≤ lastIndex` always fails, and the branch returns `data[lastIndex] = a`. -/
theorem distributeDataPoints_singleton (a : ℚ) (T : ℕ) :
    distributeDataPoints [a] T = List.replicate T a := by
  rcases Nat.lt_or_ge T 2 with hT | hT
  · interval_cases T
    · rfl
    · rfl
  · have h1 : ¬ ([a] : List ℚ).length = 0 := by simp
    have h2 : ¬ ([a] : List ℚ).length = T := by simp; omega
    have h3 : ([a] : List ℚ).length < T := by simp; omega
    unfold distributeDataPoints
    rw [if_neg h1, if_neg h2, if_pos h3]
    have hpt : ∀ i : ℕ, interpPoint [a] T i = a := by
      intro i
      unfold interpPoint interpIndex
      norm_num
    refine List.eq_replicate_iff.mpr ⟨by simp, ?_⟩
    intro b hb
    rw [List.mem_map] at hb
    obtain ⟨i, _, rfl⟩ := hb
    exact hpt i

/-- Claim C9: `distributeDataPoints` never indexes past the end of its input.
For a non-empty list of length `L` and any output position `i < T`, the
subsampling index `⌊(i/T)·L⌋` is strictly below `L`, and the interpolation index
`⌊(i/(T-1))·(L-1)⌋` is at most `L - 1`, so the read of `data[index]` is in
bounds; the read of `data[index + 1]` happens only under the explicit guard
`index + 1 ≤ L - 1 < L`, hence is in bounds as well. -/
theorem distributeDataPoints_indices_inbounds (L T i : ℕ) (hL : 1 ≤ L) (hi : i < T) :
    subIndex L T i < L ∧ (interpIndex L T i).toNat ≤ L - 1 := by
  constructor
  · have hT0 : 0 < T := lt_of_le_of_lt (Nat.zero_le i) hi
    have hTq : (0 : ℚ) < (T : ℚ) := by exact_mod_cast hT0
    have hLq : (0 : ℚ) < (L : ℚ) := by exact_mod_cast hL
    have hdiv : (i : ℚ) / (T : ℚ) < 1 := by
      rw [div_lt_one hTq]
      exact_mod_cast hi
    have hx : ((i : ℚ) / (T : ℚ)) * (L : ℚ) < (L : ℚ) := by
      have := mul_lt_mul_of_pos_right hdiv hLq
      rwa [one_mul] at this
    have hfl : ⌊((i : ℚ) / (T : ℚ)) * (L : ℚ)⌋ < (L : ℤ) := by
      rw [Int.floor_lt]
      push_cast
      exact hx
    unfold subIndex
    omega
  · by_cases hT1 : T = 1
    · subst hT1
      have hi0 : i = 0 := by omega
      subst hi0
      unfold interpIndex
      norm_num
    · have hT2 : 2 ≤ T := by omega
      have hTq : (0 : ℚ) < (T : ℚ) - 1 := by
        have : (2 : ℚ) ≤ (T : ℚ) := by exact_mod_cast hT2
        linarith
      have hiq : (i : ℚ) ≤ (T : ℚ) - 1 := by
        have : (i : ℚ) + 1 ≤ (T : ℚ) := by exact_mod_cast hi
        linarith
      have hdiv : (i : ℚ) / ((T : ℚ) - 1) ≤ 1 := by
        rw [div_le_one hTq]
        linarith
      have hdiv0 : (0 : ℚ) ≤ (i : ℚ) / ((T : ℚ) - 1) := by positivity
      have hc0 : (0 : ℚ) ≤ ((L - 1 : ℕ) : ℚ) := Nat.cast_nonneg _
      have hxle : ((i : ℚ) / ((T : ℚ) - 1)) * ((L - 1 : ℕ) : ℚ) ≤ ((L - 1 : ℕ) : ℚ) := by
        nlinarith
      have hfl : ⌊((i : ℚ) / ((T : ℚ) - 1)) * ((L - 1 : ℕ) : ℚ)⌋ ≤ ((L - 1 : ℕ) : ℤ) := by
        calc ⌊((i : ℚ) / ((T : ℚ) - 1)) * ((L - 1 : ℕ) : ℚ)⌋
            ≤ ⌊((L - 1 : ℕ) : ℚ)⌋ := Int.floor_le_floor hxle
          _ = ((L - 1 : ℕ) : ℤ) := Int.floor_natCast _
      unfold interpIndex
      omega

/-- Concrete instance of the index-safety theorem at `L = 4`, `T = 6`, `i = 5`. -/
theorem distributeDataPoints_indices_inbounds_witness :
    1 ≤ 4 ∧ 5 < 6 ∧ subIndex 4 6 5 < 4 ∧ (interpIndex 4 6 5).toNat ≤ 4 - 1 :=
  ⟨by norm_num, by norm_num,
    (distributeDataPoints_indices_inbounds 4 6 5 (by norm_num) (by norm_num)).1,
    (distributeDataPoints_indices_inbounds 4 6 5 (by norm_num) (by norm_num)).2⟩

/-- Decidable all-nonnegative check over a finished series. -/
def allNonneg (l : List ℚ) : Bool := l.all fun x => decide (0 ≤ x)

/-- Shallow embedding of `generateTimeSeriesData(points, minValue, maxValue)` from
`src/services/performanceService.ts`: linear ramp from `minValue` to `maxValue`
with multiplicative jitter, no lower clamp. `r i` is the `Math.random()` draw of
iteration `i`. -/
def generateTimeSeriesData (r : ℕ → ℚ) (points : ℕ) (minValue maxValue : ℚ) : List ℚ :=
  (List.range points).map fun (i : ℕ) =>
    let progress : ℚ := (i : ℚ) / (points : ℚ)
    let base := minValue + (maxValue - minValue) * progress
    let jitter := (maxValue - minValue) * (2 / 10) * (r i - 1 / 2)
    base + jitter

/-- The second shipped variant of `generateTimeSeriesData`, which additionally
clamps each point with `Math.max(0, ...)`. -/
def generateTimeSeriesDataP1 (r : ℕ → ℚ) (points : ℕ) (minValue maxValue : ℚ) : List ℚ :=
  (List.range points).map fun (i : ℕ) =>
    let progress : ℚ := (i : ℚ) / (points : ℚ)
    let base := minValue + (maxValue - minValue) * progress
    let jitter := (maxValue - minValue) * (2 / 10) * (r i - 1 / 2)
    max 0 (base + jitter)

/-- Shallow embedding of `generateTimeSeriesDataAroundValue(points, value, variability)`
from `src/services/performanceService.ts`: value with an upward trend factor
`1 + 0.1·progress` and jitter `value·variability·(random − 1/2)`, no lower clamp. -/
def generateTimeSeriesDataAroundValue (r : ℕ → ℚ) (points : ℕ) (value variability : ℚ) :
    List ℚ :=
  (List.range points).map fun (i : ℕ) =>
    let progress : ℚ := (i : ℚ) / (points : ℚ)
    let variation := value * variability * (r i - 1 / 2)
    let trendFactor := 1 + progress * (1 / 10)
    value * trendFactor + variation

/-- The second shipped variant of `generateTimeSeriesDataAroundValue`, which
additionally clamps each point with `Math.max(0, ...)`. -/
def generateTimeSeriesDataAroundValueP1 (r : ℕ → ℚ) (points : ℕ) (value variability : ℚ) :
    List ℚ :=
  (List.range points).map fun (i : ℕ) =>
    let progress : ℚ := (i : ℚ) / (points : ℚ)
    let variation := value * variability * (r i - 1 / 2)
    let trendFactor := 1 + progress * (1 / 10)
    max 0 (value * trendFactor + variation)

/-- Claim C7 counterexample: the `src/services/performanceService.ts` variant of
`generateTimeSeriesData` has no `Math.max(0, ...)` clamp, so on the valid random
draw `0` and inputs `points = 1`, `minValue = 0`, `maxValue = 1` it produces the
negative point `-1/10`, refuting "every generated value is ≥ 0 for all inputs
and all random draws". -/
theorem generateTimeSeriesData_negative :
    ((0 : ℚ) ≤ 0 ∧ (0 : ℚ) < 1) ∧
    generateTimeSeriesData (fun _ => 0) 1 0 1 = [-(1 / 10)] ∧ (-(1 / 10) : ℚ) < 0 := by
  refine ⟨⟨le_refl 0, by norm_num⟩, ?_, by norm_num⟩
  simp only [generateTimeSeriesData, List.range_succ, List.range_zero]
  norm_num

/-- Claim C7, amended: only the second shipped variant clamps generated series
points at 0 (for all inputs and draws); the `src/services/performanceService.ts`
variant has no clamp, but with the arguments actually passed at its call sites —
bounds `(0.8·v, 1.2·v)` and centre values `v ≥ 0` with the default variability
`0.2` — every generated point is still nonnegative for every draw in `[0, 1)`. -/
theorem generatedSeries_nonneg (r : ℕ → ℚ) (hr : ∀ i, 0 ≤ r i ∧ r i < 1)
    (points : ℕ) (v mn mx w u : ℚ) (hv : 0 ≤ v) :
    allNonneg (generateTimeSeriesDataP1 r points mn mx) = true ∧
    allNonneg (generateTimeSeriesDataAroundValueP1 r points w u) = true ∧
    allNonneg (generateTimeSeriesData r points (v * (8 / 10)) (v * (12 / 10))) = true ∧
    allNonneg (generateTimeSeriesDataAroundValue r points v (2 / 10)) = true := by
  have hprog : ∀ i : ℕ, (0 : ℚ) ≤ (i : ℚ) / (points : ℚ) := by
    intro i
    positivity
  refine ⟨?_, ?_, ?_, ?_⟩
  · rw [allNonneg, List.all_eq_true]
    intro x hx
    rw [generateTimeSeriesDataP1, List.mem_map] at hx
    obtain ⟨i, _, rfl⟩ := hx
    rw [decide_eq_true_iff]
    exact le_max_left _ _
  · rw [allNonneg, List.all_eq_true]
    intro x hx
    rw [generateTimeSeriesDataAroundValueP1, List.mem_map] at hx
    obtain ⟨i, _, rfl⟩ := hx
    rw [decide_eq_true_iff]
    exact le_max_left _ _
  · rw [allNonneg, List.all_eq_true]
    intro x hx
    rw [generateTimeSeriesData, List.mem_map] at hx
    obtain ⟨i, _, rfl⟩ := hx
    rw [decide_eq_true_iff]
    have hp := hprog i
    have hri := (hr i).1
    have h1 : 0 ≤ v * ((i : ℚ) / (points : ℚ)) := mul_nonneg hv hp
    have h2 : 0 ≤ v * r i := mul_nonneg hv hri
    nlinarith
  · rw [allNonneg, List.all_eq_true]
    intro x hx
    rw [generateTimeSeriesDataAroundValue, List.mem_map] at hx
    obtain ⟨i, _, rfl⟩ := hx
    rw [decide_eq_true_iff]
    have hp := hprog i
    have hri := (hr i).1
    have h1 : 0 ≤ v * ((i : ℚ) / (points : ℚ)) := mul_nonneg hv hp
    have h2 : 0 ≤ v * r i := mul_nonneg hv hri
    nlinarith

/-- Concrete instance of the amended series-nonnegativity theorem: constant draw
`1/2`, two points, call-site arguments derived from the rate `v = 10`. -/
theorem generatedSeries_nonneg_witness :
    ((0 : ℚ) ≤ 1 / 2 ∧ (1 / 2 : ℚ) < 1) ∧ (0 : ℚ) ≤ 10 ∧
    allNonneg (generateTimeSeriesData (fun _ => 1 / 2) 2 (10 * (8 / 10)) (10 * (12 / 10)))
      = true :=
  ⟨⟨by norm_num, by norm_num⟩, by norm_num,
    (generatedSeries_nonneg (fun _ => 1 / 2) (fun _ => ⟨by norm_num, by norm_num⟩)
      2 10 0 0 0 0 (by norm_num)).2.2.1⟩

/-- `Math.max(0, Math.min(100, 100 - avgLoadTime / 50))`, the response-time
score of `runApiEndpointTest` and `fallbackWebTest`. -/
def responseTimeScore (avgLoadTime : ℚ) : ℚ := max 0 (min 100 (100 - avgLoadTime / 50))

/-- `Math.round(successRate * 0.7 + responseTimeScore * 0.3)`, the overall score
of the probe paths, with `successRate = 100 - errorRate`. -/
def overallApiScore (errorRate avgLoadTime : ℚ) : ℤ :=
  jsRound ((100 - errorRate) * (7 / 10) + responseTimeScore avgLoadTime * (3 / 10))

/-- `Math.min(100, Math.max(0, x))`, the clamp applied to every sub-score. -/
def clampScore (x : ℚ) : ℚ := min 100 (max 0 x)

/-- Sub-score `ttfb = min(100, max(0, 100 - avgLatency / 10))`. -/
def ttfbScore (avgLatency : ℚ) : ℚ := clampScore (100 - avgLatency / 10)

/-- Sub-score `fcp = min(100, max(0, 100 - avgLoadTime / 50))`. -/
def fcpScore (avgLoadTime : ℚ) : ℚ := clampScore (100 - avgLoadTime / 50)

/-- Sub-score `lcp = min(100, max(0, 100 - avgLoadTime / 100))`. -/
def lcpScore (avgLoadTime : ℚ) : ℚ := clampScore (100 - avgLoadTime / 100)

/-- Sub-score `ttl = min(100, max(0, 100 - avgLoadTime / 30))`. -/
def ttlScore (avgLoadTime : ℚ) : ℚ := clampScore (100 - avgLoadTime / 30)

/-- Claim C3: for arbitrary nonnegative `avgLoadTime` and `avgLatency`
(including 0 and 10,000,000) and error rate in `[0, 100]`, the four sub-scores
`ttfb`, `fcp`, `lcp`, `ttl` and the computed overall score of the probe paths
all lie in `[0, 100]`. -/
theorem apiScores_in_range (avgLoadTime avgLatency errorRate : ℚ)
    (hload : 0 ≤ avgLoadTime) (hlat : 0 ≤ avgLatency)
    (he0 : 0 ≤ errorRate) (he1 : errorRate ≤ 100) :
    (0 ≤ overallApiScore errorRate avgLoadTime ∧ overallApiScore errorRate avgLoadTime ≤ 100) ∧
    (0 ≤ ttfbScore avgLatency ∧ ttfbScore avgLatency ≤ 100) ∧
    (0 ≤ fcpScore avgLoadTime ∧ fcpScore avgLoadTime ≤ 100) ∧
    (0 ≤ lcpScore avgLoadTime ∧ lcpScore avgLoadTime ≤ 100) ∧
    (0 ≤ ttlScore avgLoadTime ∧ ttlScore avgLoadTime ≤ 100) := by
  have hclamp : ∀ x : ℚ, 0 ≤ clampScore x ∧ clampScore x ≤ 100 := by
    intro x
    exact ⟨le_min (by norm_num) (le_max_left 0 x), min_le_left _ _⟩
  refine ⟨?_, hclamp _, hclamp _, hclamp _, hclamp _⟩
  have hrts0 : 0 ≤ responseTimeScore avgLoadTime := le_max_left _ _
  have hrts1 : responseTimeScore avgLoadTime ≤ 100 :=
    max_le (by norm_num) (min_le_left _ _)
  unfold overallApiScore jsRound
  constructor
  · rw [Int.floor_nonneg]
    nlinarith
  · have hlt : ⌊(100 - errorRate) * (7 / 10) + responseTimeScore avgLoadTime * (3 / 10)
        + 1 / 2⌋ < (101 : ℤ) := by
      rw [Int.floor_lt]
      push_cast
      nlinarith
    omega

/-- Concrete instance of the score-range theorem at the extreme load time
`10,000,000` ms, latency `0` and error rate `0`. -/
theorem apiScores_in_range_witness :
    (0 : ℚ) ≤ 10000000 ∧ (0 : ℚ) ≤ 0 ∧ ((0 : ℚ) ≤ 0 ∧ (0 : ℚ) ≤ 100) ∧
    ((0 ≤ overallApiScore 0 10000000 ∧ overallApiScore 0 10000000 ≤ 100) ∧
      (0 ≤ ttfbScore 0 ∧ ttfbScore 0 ≤ 100) ∧
      (0 ≤ fcpScore 10000000 ∧ fcpScore 10000000 ≤ 100) ∧
      (0 ≤ lcpScore 10000000 ∧ lcpScore 10000000 ≤ 100) ∧
      (0 ≤ ttlScore 10000000 ∧ ttlScore 10000000 ≤ 100)) :=
  ⟨by norm_num, by norm_num, ⟨by norm_num, by norm_num⟩,
    apiScores_in_range 10000000 0 0 (by norm_num) (by norm_num) (by norm_num) (by norm_num)⟩

/-- The `(errorRate, successRate)` pair stored in `summary` by every metrics
source: both probe paths and the Lighthouse path store `e.toFixed(2)` and
`(100 - e).toFixed(2)` for their respective error-rate value `e`. -/
def summaryRates (errorRate : ℚ) : ℚ × ℚ := (jsToFixed2 errorRate, jsToFixed2 (100 - errorRate))

/-- Claim C4: for every generated `PerformanceMetrics` — every source computes
`successRate = 100 - errorRate` and formats both with `toFixed(2)` — the stored
`successRate + errorRate` equals `100` up to the displayed rounding: the sum is
within `1/100` of `100` (it is exactly `100` unless `100·errorRate + 1/2` is an
integer, where the two half-way roundings both go up and give `100.01`). -/
theorem summary_success_plus_error (e : ℚ) :
    |(summaryRates e).1 + (summaryRates e).2 - 100| ≤ 1 / 100 := by
  unfold summaryRates jsToFixed2
  have hrw : (100 : ℚ) * (100 - e) + 1 / 2 = ((10001 : ℤ) : ℚ) + (-(100 * e + 1 / 2)) := by
    push_cast
    ring
  rw [hrw, Int.floor_int_add, Int.floor_neg]
  have h1 : (⌈100 * e + 1 / 2⌉ : ℚ) ≤ (⌊100 * e + 1 / 2⌋ : ℚ) + 1 := by
    exact_mod_cast Int.ceil_le_floor_add_one _
  have h2 : (⌊100 * e + 1 / 2⌋ : ℚ) ≤ (⌈100 * e + 1 / 2⌉ : ℚ) := by
    exact_mod_cast Int.floor_le_ceil _
  rw [abs_le]
  constructor
  · push_cast
    linarith
  · push_cast
    linarith

/-- `Math.round((categories.performance?.score || 0) * 100)`, the overall score
extracted by `processLighthouseData` from the provider's `0–1` score. -/
def overallScoreOf (s : ℚ) : ℤ := jsRound (s * 100)

/-- `Math.max(0, (100 - overallScore) / 20)`, the error rate
`processLighthouseData` estimates from the provider score. -/
def estErrorRate (s : ℚ) : ℚ := max 0 ((100 - (overallScoreOf s : ℚ)) / 20)

/-- The hard-coded status-code percentages of `processLighthouseData` in
`src/services/performanceService.ts`: buckets `200`, `301`, `404`, `500`, `Other`. -/
def lighthouseStatusValues (e : ℚ) : List ℚ := [95 - e, 3, e / 3, e * 2 / 3, 2]

/-- The hard-coded status-code percentages of the second shipped variant of
`processLighthouseData`: the `200` bucket is `max(0, 100 - e - 5)`. -/
def lighthouseStatusValuesP1 (e : ℚ) : List ℚ := [max 0 (100 - e - 5), 3, e / 3, e * 2 / 3, 2]

/-- Claim C10: if the provider performance score `s` lies in `[0, 1]`, then the
estimated error rate `max(0, (100 - round(s·100)) / 20)` is at most `5`, every
hard-coded status-code percentage entry (in both shipped variants) is
nonnegative, and the five entries sum to exactly `100` in exact arithmetic. -/
theorem lighthouse_status_sum (s : ℚ) (h0 : 0 ≤ s) (h1 : s ≤ 1) :
    estErrorRate s ≤ 5 ∧
    allNonneg (lighthouseStatusValues (estErrorRate s)) = true ∧
    (lighthouseStatusValues (estErrorRate s)).sum = 100 ∧
    allNonneg (lighthouseStatusValuesP1 (estErrorRate s)) = true ∧
    (lighthouseStatusValuesP1 (estErrorRate s)).sum = 100 := by
  have hR0 : (0 : ℤ) ≤ overallScoreOf s := by
    unfold overallScoreOf jsRound
    rw [Int.floor_nonneg]
    nlinarith
  have he0 : 0 ≤ estErrorRate s := le_max_left _ _
  have he5 : estErrorRate s ≤ 5 := by
    unfold estErrorRate
    apply max_le (by norm_num)
    have hq : (0 : ℚ) ≤ (overallScoreOf s : ℚ) := by exact_mod_cast hR0
    linarith
  have hmax : max 0 (100 - estErrorRate s - 5) = 95 - estErrorRate s := by
    rw [max_eq_right (by linarith : (0 : ℚ) ≤ 100 - estErrorRate s - 5)]
    ring
  refine ⟨he5, ?_, ?_, ?_, ?_⟩
  · simp only [allNonneg, lighthouseStatusValues, List.all_cons, List.all_nil,
      Bool.and_eq_true, decide_eq_true_iff, and_true]
    refine ⟨by linarith, by norm_num, by linarith, by nlinarith, by norm_num⟩
  · simp only [lighthouseStatusValues, List.sum_cons, List.sum_nil]
    ring
  · simp only [allNonneg, lighthouseStatusValuesP1, List.all_cons, List.all_nil,
      Bool.and_eq_true, decide_eq_true_iff, and_true]
    refine ⟨le_max_left _ _, by norm_num, by linarith, by nlinarith, by norm_num⟩
  · simp only [lighthouseStatusValuesP1, List.sum_cons, List.sum_nil, hmax]
    ring

/-- Concrete instance of the Lighthouse status-code theorem at provider score
`s = 1/2`, where the estimated error rate is `5/2`. -/
theorem lighthouse_status_sum_witness :
    (0 : ℚ) ≤ 1 / 2 ∧ (1 / 2 : ℚ) ≤ 1 ∧
    (estErrorRate (1 / 2) ≤ 5 ∧
      allNonneg (lighthouseStatusValues (estErrorRate (1 / 2))) = true ∧
      (lighthouseStatusValues (estErrorRate (1 / 2))).sum = 100 ∧
      allNonneg (lighthouseStatusValuesP1 (estErrorRate (1 / 2))) = true ∧
      (lighthouseStatusValuesP1 (estErrorRate (1 / 2))).sum = 100) :=
  ⟨by norm_num, by norm_num, lighthouse_status_sum (1 / 2) (by norm_num) (by norm_num)⟩

/-- The formatted status-code percentages of `runApiEndpointTest` (and of
`fallbackWebTest`, which uses the same map step): each bucket count `c` from the
tally becomes `Number(((c / totalRequests) * 100).toFixed(1))`, where
`totalRequests` is the sum of all bucket counts. -/
def statusValues (counts : List ℕ) : List ℚ :=
  counts.map fun (c : ℕ) => jsToFixed1 (((c : ℚ) / ((counts.sum : ℕ) : ℚ)) * 100)

/-- `totalPercentage`, the sum of the formatted bucket percentages. -/
def statusTotalPercentage (counts : List ℕ) : ℚ := (statusValues counts).sum

/-- The sum of the `statusCodes` percentages after `runApiEndpointTest` appends
its `Other` bucket: when `totalPercentage < 100` and at least one bucket exists,
`Number((100 - totalPercentage).toFixed(1))` is pushed; otherwise nothing is. -/
def statusSumAfterOther (counts : List ℕ) : ℚ :=
  if statusTotalPercentage counts < 100 ∧ counts ≠ [] then
    statusTotalPercentage counts + jsToFixed1 (100 - statusTotalPercentage counts)
  else statusTotalPercentage counts

/-- `toFixed(1)` moves a value by at most `1/20`. -/
theorem jsToFixed1_sub_abs (x : ℚ) : |jsToFixed1 x - x| ≤ 1 / 20 := by
  unfold jsToFixed1
  have h1 : ((⌊10 * x + 1 / 2⌋ : ℤ) : ℚ) ≤ 10 * x + 1 / 2 := Int.floor_le _
  have h2 : 10 * x + 1 / 2 < ((⌊10 * x + 1 / 2⌋ : ℤ) : ℚ) + 1 := Int.lt_floor_add_one _
  rw [abs_le]
  constructor
  · linarith
  · linarith

/-- `toFixed(1)` fixes every multiple of `1/10`. -/
theorem jsToFixed1_tenth (n : ℤ) : jsToFixed1 ((n : ℚ) / 10) = (n : ℚ) / 10 := by
  unfold jsToFixed1
  have hrw : (10 : ℚ) * ((n : ℚ) / 10) + 1 / 2 = (n : ℚ) + 1 / 2 := by ring
  rw [hrw, Int.floor_int_add]
  have h0 : ⌊(1 / 2 : ℚ)⌋ = 0 := by
    rw [Int.floor_eq_zero_iff]
    constructor
    · norm_num
    · norm_num
  rw [h0]
  push_cast
  ring

/-- A sum of multiples of `1/10` is a multiple of `1/10`. -/
theorem sum_of_tenths (l : List ℚ) (h : ∀ x ∈ l, ∃ n : ℤ, x = (n : ℚ) / 10) :
    ∃ n : ℤ, l.sum = (n : ℚ) / 10 := by
  induction l with
  | nil => exact ⟨0, by simp⟩
  | cons x t ih =>
    obtain ⟨n, hn⟩ := h x (by simp)
    obtain ⟨m, hm⟩ := ih (fun y hy => h y (by simp [hy]))
    refine ⟨n + m, ?_⟩
    rw [List.sum_cons, hn, hm]
    push_cast
    ring

/-- Sums of two pointwise-close maps over the same list differ by at most
`length · c`. -/
theorem abs_sum_map_sub (l : List ℕ) (f g : ℕ → ℚ) (c : ℚ)
    (h : ∀ x ∈ l, |f x - g x| ≤ c) :
    |(l.map f).sum - (l.map g).sum| ≤ (l.length : ℚ) * c := by
  induction l with
  | nil => simp
  | cons x t ih =>
    simp only [List.map_cons, List.sum_cons, List.length_cons]
    have ht := ih (fun y hy => h y (by simp [hy]))
    have hx := h x (by simp)
    have hsplit : f x + (t.map f).sum - (g x + (t.map g).sum)
        = (f x - g x) + ((t.map f).sum - (t.map g).sum) := by ring
    calc |f x + (t.map f).sum - (g x + (t.map g).sum)|
        = |(f x - g x) + ((t.map f).sum - (t.map g).sum)| := by rw [hsplit]
      _ ≤ |f x - g x| + |(t.map f).sum - (t.map g).sum| := abs_add _ _
      _ ≤ c + (t.length : ℚ) * c := add_le_add hx ht
      _ = ((t.length : ℚ) + 1) * c := by ring
      _ = ((t.length + 1 : ℕ) : ℚ) * c := by push_cast; ring

/-- Mapping `c ↦ (c / T) · 100` over a tally and summing gives `sum · 100 / T`. -/
theorem sum_map_share (l : List ℕ) (T : ℚ) :
    (l.map fun (c : ℕ) => ((c : ℚ) / T) * 100).sum = ((l.sum : ℕ) : ℚ) * 100 / T := by
  induction l with
  | nil => simp
  | cons x t ih =>
    simp only [List.map_cons, List.sum_cons, ih, List.sum_cons]
    push_cast
    ring

/-- The exact (unrounded) percentages of a non-empty tally sum to `100`. -/
theorem sum_share_eq_100 (counts : List ℕ) (h : counts.sum ≠ 0) :
    (counts.map fun (c : ℕ) => ((c : ℚ) / ((counts.sum : ℕ) : ℚ)) * 100).sum = 100 := by
  have hT : ((counts.sum : ℕ) : ℚ) ≠ 0 := Nat.cast_ne_zero.mpr h
  rw [sum_map_share, mul_comm, mul_div_assoc, div_self hT, mul_one]

/-- Claim C2 counterexample: a reachable probe tally of 16 distinct status
buckets with one request each (e.g. duration 32 s, 16 requests, every response
a different status) gives `16 · toFixed1(6.25) = 16 · 6.3 = 100.8`; the
percentages over-sum, so no `Other` bucket is appended and the total misses
`100` by `0.8 > 0.5`, refuting the claimed `100 ± 0.5`. -/
theorem statusCodes_over_tolerance :
    statusSumAfterOther (List.replicate 16 1) = 504 / 5 ∧
    ¬ |statusSumAfterOther (List.replicate 16 1) - 100| ≤ 1 / 2 := by
  have hsum : (List.replicate 16 (1 : ℕ)).sum = 16 := by simp
  have htp : statusTotalPercentage (List.replicate 16 1) = 504 / 5 := by
    unfold statusTotalPercentage statusValues
    rw [List.map_replicate, hsum, List.sum_replicate]
    have hval : jsToFixed1 ((((1 : ℕ) : ℚ) / ((16 : ℕ) : ℚ)) * 100) = 63 / 10 := by
      unfold jsToFixed1
      rw [show (10 : ℚ) * ((((1 : ℕ) : ℚ) / ((16 : ℕ) : ℚ)) * 100) + 1 / 2 = ((63 : ℤ) : ℚ) by
        push_cast; norm_num, Int.floor_intCast]
      norm_num
    rw [hval]
    norm_num
  have hfinal : statusSumAfterOther (List.replicate 16 1) = 504 / 5 := by
    have hcond : ¬ (statusTotalPercentage (List.replicate 16 1) < 100 ∧
        (List.replicate 16 (1 : ℕ)) ≠ []) := by
      rintro ⟨hc, -⟩
      rw [htp] at hc
      norm_num at hc
    unfold statusSumAfterOther
    rw [if_neg hcond, htp]
  refine ⟨hfinal, ?_⟩
  rw [hfinal, show (504 / 5 : ℚ) - 100 = 4 / 5 by norm_num,
    abs_of_nonneg (by norm_num : (0 : ℚ) ≤ 4 / 5)]
  norm_num

/-- Claim C2, amended: for every non-empty probe tally, each rounded bucket is
within `1/20` of its exact share, so the pre-correction total is within
`#buckets/20` of `100` (this also covers `fallbackWebTest`, which never appends
an `Other` bucket); whenever the rounded buckets under-sum, the appended `Other`
bucket makes the total exactly `100` (the correction value is a multiple of
`1/10` and is fixed by `toFixed(1)`); otherwise the buckets over-sum and the
total, left uncorrected, still satisfies `|total - 100| ≤ #buckets/20`, a bound
that can exceed the claimed `0.5` only when more than 10 buckets over-round. -/
theorem statusCodes_sum_amended (counts : List ℕ) (h : 0 < counts.sum) :
    |statusTotalPercentage counts - 100| ≤ (counts.length : ℚ) / 20 ∧
    |statusSumAfterOther counts - 100| ≤ (counts.length : ℚ) / 20 ∧
    (statusSumAfterOther counts = 100 ∨
      (100 ≤ statusTotalPercentage counts ∧
        statusSumAfterOther counts = statusTotalPercentage counts)) := by
  have hne : counts ≠ [] := by
    intro h0
    rw [h0] at h
    simp at h
  have hT : counts.sum ≠ 0 := Nat.pos_iff_ne_zero.mp h
  have htp_bound : |statusTotalPercentage counts - 100| ≤ (counts.length : ℚ) / 20 := by
    unfold statusTotalPercentage statusValues
    have h100 := sum_share_eq_100 counts hT
    calc |(counts.map fun (c : ℕ) => jsToFixed1 (((c : ℚ) / ((counts.sum : ℕ) : ℚ)) * 100)).sum - 100|
        = |(counts.map fun (c : ℕ) => jsToFixed1 (((c : ℚ) / ((counts.sum : ℕ) : ℚ)) * 100)).sum -
            (counts.map fun (c : ℕ) => ((c : ℚ) / ((counts.sum : ℕ) : ℚ)) * 100).sum| := by rw [h100]
      _ ≤ (counts.length : ℚ) * (1 / 20) :=
          abs_sum_map_sub counts _ _ (1 / 20) (fun x _ => jsToFixed1_sub_abs _)
      _ = (counts.length : ℚ) / 20 := by ring
  have htenth : ∃ n : ℤ, statusTotalPercentage counts = (n : ℚ) / 10 := by
    unfold statusTotalPercentage statusValues
    apply sum_of_tenths
    intro x hx
    rw [List.mem_map] at hx
    obtain ⟨c, _, rfl⟩ := hx
    exact ⟨⌊10 * (((c : ℚ) / ((counts.sum : ℕ) : ℚ)) * 100) + 1 / 2⌋, rfl⟩
  refine ⟨htp_bound, ?_⟩
  unfold statusSumAfterOther
  by_cases hlt : statusTotalPercentage counts < 100 ∧ counts ≠ []
  · rw [if_pos hlt]
    obtain ⟨n, hn⟩ := htenth
    have hother : jsToFixed1 (100 - statusTotalPercentage counts)
        = 100 - statusTotalPercentage counts := by
      have hrw : 100 - statusTotalPercentage counts = ((1000 - n : ℤ) : ℚ) / 10 := by
        rw [hn]
        push_cast
        ring
      rw [hrw, jsToFixed1_tenth, ← hrw]
    rw [hother]
    constructor
    · have hzero : statusTotalPercentage counts + (100 - statusTotalPercentage counts) - 100
          = 0 := by ring
      rw [hzero, abs_zero]
      positivity
    · left
      ring
  · rw [if_neg hlt]
    have h100 : 100 ≤ statusTotalPercentage counts := by
      rcases not_and_or.mp hlt with h' | h'
      · exact le_of_not_lt h'
      · exact absurd hne h'
    exact ⟨htp_bound, Or.inr ⟨h100, rfl⟩⟩

/-- Concrete instance of the amended status-code theorem: tally `[1, 1, 1]`
(three requests, three distinct statuses), where the rounded buckets under-sum
to `99.9` and the `Other` bucket restores exactly `100`. -/
theorem statusCodes_sum_amended_witness :
    0 < ([1, 1, 1] : List ℕ).sum ∧
    (|statusTotalPercentage [1, 1, 1] - 100| ≤ ((([1, 1, 1] : List ℕ).length : ℕ) : ℚ) / 20 ∧
      |statusSumAfterOther [1, 1, 1] - 100| ≤ ((([1, 1, 1] : List ℕ).length : ℕ) : ℚ) / 20 ∧
      (statusSumAfterOther [1, 1, 1] = 100 ∨
        (100 ≤ statusTotalPercentage [1, 1, 1] ∧
          statusSumAfterOther [1, 1, 1] = statusTotalPercentage [1, 1, 1]))) :=
  ⟨by decide, statusCodes_sum_amended [1, 1, 1] (by decide)⟩

/-- `Math.min(Math.max(users, 20), Math.ceil(duration * 2))`, the number of
sequential probe requests issued by `runApiEndpointTest` in the second shipped
variant of the service — the formula the spec states for the direct probe. -/
def requestsToMake (users duration : ℕ) : ℕ :=
  min (max users 20) (⌈(duration : ℚ) * 2⌉).toNat

/-- `Math.min(20, Math.ceil(duration / 2))`, the number of sequential probe
requests issued by `runApiEndpointTest` in `src/services/performanceService.ts`,
which ignores `users` entirely. -/
def requestsToMakeMain (duration : ℕ) : ℕ :=
  min 20 (⌈(duration : ℚ) / 2⌉).toNat

/-- Claim C5 counterexample: at `users = 50`, `duration = 30` (both within the
UI slider bounds) the claimed formula `min(max(users, 20), ceil(duration·2))`
gives `50` — and the second variant's probe does issue 50 requests — but the
probe of `src/services/performanceService.ts` issues `min(20, ceil(30/2)) = 15`
requests, refuting the claim for that source. -/
theorem requestCount_mismatch :
    requestsToMakeMain 30 = 15 ∧ requestsToMake 50 30 = 50 ∧
    requestsToMakeMain 30 ≠ requestsToMake 50 30 := by
  have hm : requestsToMakeMain 30 = 15 := by
    unfold requestsToMakeMain
    rw [show ⌈((30 : ℕ) : ℚ) / 2⌉ = 15 by push_cast; norm_num]
    rfl
  have hp : requestsToMake 50 30 = 50 := by
    unfold requestsToMake
    rw [show ⌈((30 : ℕ) : ℚ) * 2⌉ = 60 by push_cast; norm_num]
    rfl
  refine ⟨hm, hp, ?_⟩
  rw [hm, hp]
  norm_num

/-- Claim C5, amended: the two shipped variants disagree. The second variant
issues exactly `min(max(users, 20), ceil(duration·2)) = min(max(users, 20), 2·duration)`
sequential requests, as the claim states; the variant in
`src/services/performanceService.ts` ignores `users` and issues
`min(20, ceil(duration/2)) = min(20, (duration+1)/2)` requests — never more
than 20. -/
theorem requestCount_formulas (users duration : ℕ) :
    requestsToMake users duration = min (max users 20) (2 * duration) ∧
    requestsToMakeMain duration = min 20 ((duration + 1) / 2) ∧
    requestsToMakeMain duration ≤ 20 := by
  have hceil2 : ⌈(duration : ℚ) * 2⌉ = ((2 * duration : ℕ) : ℤ) := by
    rw [show (duration : ℚ) * 2 = ((2 * duration : ℕ) : ℚ) by push_cast; ring,
      Int.ceil_natCast]
  have hm1 : duration ≤ 2 * ((duration + 1) / 2) := by omega
  have hm2 : 2 * ((duration + 1) / 2) ≤ duration + 1 := by omega
  have hhalf : ⌈(duration : ℚ) / 2⌉ = (((duration + 1) / 2 : ℕ) : ℤ) := by
    have h1 : (duration : ℚ) ≤ 2 * (((duration + 1) / 2 : ℕ) : ℚ) := by
      exact_mod_cast hm1
    have h2 : 2 * (((duration + 1) / 2 : ℕ) : ℚ) ≤ (duration : ℚ) + 1 := by
      exact_mod_cast hm2
    rw [Int.ceil_eq_iff]
    constructor
    · rw [Int.cast_natCast]
      linarith
    · rw [Int.cast_natCast]
      linarith
  refine ⟨?_, ?_, ?_⟩
  · unfold requestsToMake
    rw [hceil2, Int.toNat_natCast]
  · unfold requestsToMakeMain
    rw [hhalf, Int.toNat_natCast]
  · unfold requestsToMakeMain
    exact min_le_left _ _

/-- `s.startsWith(sub)` on character lists: `sub` is a leading segment of `s`. -/
def charsStartWith : List Char → List Char → Bool
  | [], _ => true
  | _ :: _, [] => false
  | a :: as, b :: bs => a == b && charsStartWith as bs

/-- JavaScript `s.includes(sub)` on character lists: `sub` occurs contiguously
somewhere in `s`. -/
def containsSub (sub : List Char) : List Char → Bool
  | [] => sub.isEmpty
  | c :: t => charsStartWith sub (c :: t) || containsSub sub t

/-- `url.toLowerCase()` on character lists. -/
def lowerStr (s : List Char) : List Char := s.map Char.toLower

/-- The `isApiEndpoint` check of `runPerformanceTest` (both shipped variants):
`'/api/'`, `'.json'` and `'graphql'` are matched case-sensitively, only
`'endpoint'` against the lower-cased URL; `'service'` is not checked at all. -/
def isApiEndpointUrl (url : List Char) : Bool :=
  containsSub ("/api/".toList) url || containsSub (".json".toList) url ||
  containsSub ("graphql".toList) url || containsSub ("endpoint".toList) (lowerStr url)

/-- The `isApi` check of `TestForm.handleUrlChange`: the same four checks plus
`'service'` against the lower-cased URL. -/
def isApiFormUrl (url : List Char) : Bool :=
  containsSub ("/api/".toList) url || containsSub (".json".toList) url ||
  containsSub ("graphql".toList) url || containsSub ("endpoint".toList) (lowerStr url) ||
  containsSub ("service".toList) (lowerStr url)

/-- The classifier as the claim words it: each of the five substrings matched
case-insensitively. -/
def isApiLikeClaimed (url : List Char) : Bool :=
  containsSub ("/api/".toList) (lowerStr url) || containsSub (".json".toList) (lowerStr url) ||
  containsSub ("graphql".toList) (lowerStr url) ||
  containsSub ("endpoint".toList) (lowerStr url) ||
  containsSub ("service".toList) (lowerStr url)

/-- Leading-segment matching is preserved by mapping a character function. -/
theorem charsStartWith_map (f : Char → Char) :
    ∀ sub s : List Char, charsStartWith sub s = true →
      charsStartWith (sub.map f) (s.map f) = true := by
  intro sub
  induction sub with
  | nil =>
    intro s _
    rfl
  | cons a as ih =>
    intro s hs
    cases s with
    | nil => simp [charsStartWith] at hs
    | cons b bs =>
      simp only [charsStartWith, Bool.and_eq_true, beq_iff_eq] at hs
      simp only [List.map_cons, charsStartWith, Bool.and_eq_true, beq_iff_eq]
      exact ⟨by rw [hs.1], ih bs hs.2⟩

/-- Substring occurrence is preserved by mapping a character function. -/
theorem containsSub_map (f : Char → Char) (sub : List Char) :
    ∀ s : List Char, containsSub sub s = true →
      containsSub (sub.map f) (s.map f) = true := by
  intro s
  induction s with
  | nil =>
    intro hs
    cases sub with
    | nil => rfl
    | cons a as => simp [containsSub] at hs
  | cons c t ih =>
    intro hs
    simp only [containsSub, Bool.or_eq_true] at hs
    simp only [List.map_cons, containsSub, Bool.or_eq_true]
    rcases hs with hs | hs
    · left
      have hmap := charsStartWith_map f sub (c :: t) hs
      rw [List.map_cons] at hmap
      exact hmap
    · right
      exact ih hs

/-- Claim C6 counterexample: the URL `https://example.com/service` contains the
substring `service`, so the claimed five-substring case-insensitive classifier
marks it API-like, but `runPerformanceTest`'s selector — which never checks
`service` — does not, refuting the claimed characterisation of the selector. -/
theorem isApiLike_missing_service :
    isApiLikeClaimed ("https://example.com/service".toList) = true ∧
    isApiEndpointUrl ("https://example.com/service".toList) = false := by
  constructor
  · decide
  · decide

/-- Claim C6, amended: the metrics-source selector checks only four substrings —
`'/api/'`, `'.json'`, `'graphql'` case-sensitively and `'endpoint'`
case-insensitively — while `'service'` is checked (case-insensitively) only by
the `TestForm` UI classifier; the classification only routes between the API
probe and the website test, never rejecting a URL. Every URL either classifier
flags also satisfies the claimed five-substring case-insensitive condition, but
not conversely. -/
theorem isApiLike_subsumed (url : List Char)
    (h : isApiEndpointUrl url = true ∨ isApiFormUrl url = true) :
    isApiLikeClaimed url = true := by
  have low : ∀ sub : List Char, sub.map Char.toLower = sub →
      ∀ s : List Char, containsSub sub s = true → containsSub sub (lowerStr s) = true := by
    intro sub hsub s hs
    have hmap := containsSub_map Char.toLower sub s hs
    unfold lowerStr
    rwa [hsub] at hmap
  have l1 := low ("/api/".toList) (by decide) url
  have l2 := low (".json".toList) (by decide) url
  have l3 := low ("graphql".toList) (by decide) url
  simp only [isApiEndpointUrl, isApiFormUrl, Bool.or_eq_true] at h
  simp only [isApiLikeClaimed, Bool.or_eq_true]
  tauto

/-- Concrete instance of the amended classifier theorem at a URL containing
`/api/`, flagged by the selector and satisfying the claimed condition. -/
theorem isApiLike_subsumed_witness :
    (isApiEndpointUrl ("https://x.com/api/v1".toList) = true ∨
      isApiFormUrl ("https://x.com/api/v1".toList) = true) ∧
    isApiLikeClaimed ("https://x.com/api/v1".toList) = true :=
  ⟨Or.inl (by decide), isApiLike_subsumed _ (Or.inl (by decide))⟩

end ZPerf
